import Mathlib

/-!
HDF5Serializer (ebos/hdf5serializer.hh)

A shallow embedding of `Opm::HDF5Serializer`: the pack/write and read/unpack
path, the header record and the report-step index.

* The object state is the record `HDF5Serializer` (the inherited members
  `m_packSize` and `m_buffer`, and the member `m_h5file`).
* A C++ call that may throw is a function returning the outcome
  (`Except ε α`) together with the state the call leaves behind, since a
  thrown exception does not undo the assignments made before it.
* `HDF5File` (the file backend) and `MemPacker` (the byte packer) are
  collaborators given by their interface.
* `std::atoi` is the C library function; `int` is 32 bits wide, `long` and
  `size_t` are 64 bits wide.
-/

namespace Opm

/-! ## `std::atoi` -/

/-- The value `INT_MAX + 1` of a 32-bit `int`. -/
def INT_HALF : Int := 2147483648

/-- The largest `long`. -/
def LONG_MAX : Int := 9223372036854775807

/-- The smallest `long`. -/
def LONG_MIN : Int := -9223372036854775808

/-- The invalid marker `std::numeric_limits<size_t>::max()`. -/
def SIZE_MAX : Nat := 18446744073709551615

/-- The white space of the "C" locale: space, `\t`, `\n`, `\v`, `\f`, `\r`. -/
def isspace (c : Char) : Bool :=
  c.toNat = 32 || (9 ≤ c.toNat && c.toNat ≤ 13)

/-- The decimal digits `'0'..'9'`. -/
def isdigit (c : Char) : Bool :=
  48 ≤ c.toNat && c.toNat ≤ 57

/-- The characters of `std::string::c_str()` as a C string: those before the
first NUL. -/
def c_str (s : String) : List Char :=
  s.toList.takeWhile (fun c => c.toNat != 0)

/-- The digit loop of the conversion: consumes decimal digits while there are
any, accumulating `10 * acc + digit`, and stops at the first other character. -/
def digitsValue : List Char → Nat → Nat
  | [], acc => acc
  | c :: cs, acc =>
    if isdigit c then digitsValue cs (10 * acc + (c.toNat - 48)) else acc

/-- The function `strtol(nptr, NULL, 10)`: skips white space, takes one optional
sign, converts the longest run of digits and saturates at `LONG_MIN` and
`LONG_MAX`. Without any digit the result is 0. -/
def strtol (nptr : List Char) : Int :=
  match nptr.dropWhile isspace with
  | [] => 0
  | c :: cs =>
    if c.toNat = 45 then max LONG_MIN (-(digitsValue cs 0 : Int))
    else if c.toNat = 43 then min LONG_MAX (digitsValue cs 0 : Int)
    else min LONG_MAX (digitsValue (c :: cs) 0 : Int)

/-- The conversion of a `long` to `int`: the value modulo `2^32` in the range
of `int`. -/
def toInt (z : Int) : Int :=
  (z + INT_HALF) % (2 * INT_HALF) - INT_HALF

/-- The function `std::atoi`, as `(int) strtol(nptr, NULL, 10)`. For a value
that `int` does not hold ISO C leaves the result open; this is what glibc
returns. -/
def atoi (nptr : List Char) : Int :=
  toInt (strtol nptr)

/-! ## The collaborators -/

/-- The contents of `std::vector<char>`. -/
abbrev Buffer := List (Fin 256)

/-- The enumeration `HDF5File::DataSetMode`. -/
inductive DataSetMode where
  | ROOT_ONLY
  | PROCESS_SPLIT
  deriving DecidableEq

/-- The interface of `HDF5File` as `HDF5Serializer` calls it, over the state
`F` of the file. `write` and `read` may throw (`Except.error`) and leave a
state of the file behind either way; `read` fills the buffer it is handed by
reference. -/
structure HDF5File (F ε : Type) where
  write : F → String → String → Buffer → DataSetMode → Except ε Unit × F
  read : F → String → String → Buffer → DataSetMode → Except ε Unit × F × Buffer
  list : F → String → List String

/-- The byte packer behind `Serializer<MemPacker>` for values of type `T`:
`pack` gives the bytes of a value or throws; `unpack` decodes a buffer into the
object it is handed by reference (given with its value before the call,
returned with its value after it) or throws; `packFailure` is the size and
buffer a throwing `pack` leaves behind in `m_packSize` and `m_buffer` (from the
ones it found). -/
structure MemPacker (T ε : Type) where
  pack : T → Except ε Buffer
  unpack : Buffer → T → Except ε Unit × T
  packFailure : T → Nat × Buffer → Nat × Buffer

/-- The state of an `HDF5Serializer` object. -/
structure HDF5Serializer (F : Type) where
  m_packSize : Nat
  m_buffer : Buffer
  m_h5file : F
  deriving DecidableEq

/-- The six values `writeHeader` packs, in the order of the call
`pack(simulator_name, module_version, time_stamp, case_name, params, num_procs)`. -/
abbrev HeaderFields := String × String × String × String × String × Int

namespace HDF5Serializer

variable {F ε T : Type}

/-- The method `int lastReportStep() const`. -/
def lastReportStep (B : HDF5File F ε) (self : HDF5Serializer F) : Int :=
  let entries := B.list self.m_h5file "/report_step"
  entries.foldl (fun last entry => max last (atoi (c_str entry))) (-1)

/-- The method `std::vector<int> reportSteps() const`. The call of `std::sort`
is an insertion sort here: the ascending arrangement of a sequence of `int` is
the same whatever the algorithm. -/
def reportSteps (B : HDF5File F ε) (self : HDF5Serializer F) : List Int :=
  let entries := B.list self.m_h5file "/report_step"
  let result := entries.map (fun input => atoi (c_str input))
  result.insertionSort (· ≤ ·)

/-- Modelled from the spec: the inherited `Serializer::pack`, of
opm/common/utility/Serializer.hpp, which is not under src/. Spec 4.1, steps 1
and 2: "Attempt to pack state into the Checkpoint Buffer via the Byte Packer.
On success, record the buffer's byte length as the Pack Size Sentinel." A
throwing pack leaves the size and buffer of `packFailure`; the base class has
no access to `m_h5file`. -/
def pack (P : MemPacker T ε) (data : T) (self : HDF5Serializer F) :
    Except ε Unit × HDF5Serializer F :=
  match P.pack data with
  | .ok bytes => (.ok (), { self with m_packSize := bytes.length, m_buffer := bytes })
  | .error e =>
    (.error e, { self with
      m_packSize := (P.packFailure data (self.m_packSize, self.m_buffer)).1,
      m_buffer := (P.packFailure data (self.m_packSize, self.m_buffer)).2 })

/-- Modelled from the spec: the inherited `Serializer::unpack`, of
opm/common/utility/Serializer.hpp, which is not under src/. Spec 4.1: the
buffer is unpacked "into `state_out` via the Byte Packer"; the result carries
the value of `data` after the call. -/
def unpack (P : MemPacker T ε) (data : T) (self : HDF5Serializer F) :
    (Except ε Unit × T) × HDF5Serializer F :=
  (P.unpack self.m_buffer data, self)

/-- The method `template<class T> void write(T& data, group, dset, mode)`; in the source
`mode` defaults to `DataSetMode::PROCESS_SPLIT`. -/
def write (P : MemPacker T ε) (B : HDF5File F ε) (data : T) (group dset : String)
    (mode : DataSetMode) (self : HDF5Serializer F) : Except ε Unit × HDF5Serializer F :=
  match pack P data self with
  | (.error e, self1) => (.error e, { self1 with m_packSize := SIZE_MAX })
  | (.ok (), self1) =>
    let r := B.write self1.m_h5file group dset self1.m_buffer mode
    (r.1, { self1 with m_h5file := r.2 })

/-- The method `void writeHeader(simulator_name, module_version, time_stamp, case_name,
params, num_procs)`. -/
def writeHeader (P : MemPacker HeaderFields ε) (B : HDF5File F ε)
    (simulator_name module_version time_stamp case_name params : String) (num_procs : Int)
    (self : HDF5Serializer F) : Except ε Unit × HDF5Serializer F :=
  match pack P (simulator_name, module_version, time_stamp, case_name, params, num_procs)
      self with
  | (.error e, self1) => (.error e, { self1 with m_packSize := SIZE_MAX })
  | (.ok (), self1) =>
    let r := B.write self1.m_h5file "/" "simulator_info" self1.m_buffer DataSetMode.ROOT_ONLY
    (r.1, { self1 with m_h5file := r.2 })

/-- The method `template<class T> void read(T& data, group, dset, mode)`; in the source
`mode` defaults to `DataSetMode::PROCESS_SPLIT`. The result carries the value
of `data` after the call. -/
def read (P : MemPacker T ε) (B : HDF5File F ε) (data : T) (group dset : String)
    (mode : DataSetMode) (self : HDF5Serializer F) :
    (Except ε Unit × T) × HDF5Serializer F :=
  match B.read self.m_h5file group dset self.m_buffer mode with
  | (.error e, f, buffer) => ((.error e, data), { self with m_h5file := f, m_buffer := buffer })
  | (.ok (), f, buffer) =>
    unpack P data { self with m_h5file := f, m_buffer := buffer }

end HDF5Serializer

/-! ## Reference collaborators

Small concrete instances of the two interfaces, on which the operations can be
run. -/

/-- The two kinds of failure a call can end in. -/
inductive Failure where
  | encoding
  | storage
  deriving DecidableEq

/-- One dataset of the in-memory file. -/
structure DataSet where
  group : String
  dset : String
  mode : DataSetMode
  bytes : Buffer
  deriving DecidableEq

/-- Whether a dataset lives at the given address under the given mode. -/
def DataSet.isAt (group dset : String) (mode : DataSetMode) (x : DataSet) : Bool :=
  x.group == group && x.dset == dset && x.mode == mode

/-- An in-memory file: `write` puts the dataset in front of the ones stored (so
it is the one found from then on), `read` fails with `Failure.storage` where no
dataset was written, `list` gives the dataset names of a group. -/
def memFile : HDF5File (List DataSet) Failure where
  write := fun f group dset buffer mode => (.ok (), ⟨group, dset, mode, buffer⟩ :: f)
  read := fun f group dset buffer mode =>
    match f.find? (DataSet.isAt group dset mode) with
    | some x => (.ok (), f, x.bytes)
    | none => (.error Failure.storage, f, buffer)
  list := fun f group => (f.filter (fun x => x.group == group)).map DataSet.dset

/-- A file on which every `write` and `read` fails with `Failure.storage`; `list`
is the one of `memFile`. -/
def brokenFile : HDF5File (List DataSet) Failure where
  write := fun f _ _ _ _ => (.error Failure.storage, f)
  read := fun f _ _ buffer _ => (.error Failure.storage, f, buffer)
  list := memFile.list

/-- A file whose state is the record of the `write` calls made on it, oldest
first; `read` hands the buffer back as it is. -/
def recordingFile (ε : Type) : HDF5File (List DataSet) ε where
  write := fun f group dset buffer mode => (.ok (), f ++ [⟨group, dset, mode, buffer⟩])
  read := fun f _ _ buffer _ => (.ok (), f, buffer)
  list := fun _ _ => []

/-- The serializer state over the in-memory file holding one empty dataset per
name, all under `/report_step`. -/
def withEntries (entries : List String) : HDF5Serializer (List DataSet) :=
  ⟨0, [], entries.map (fun name => ⟨"/report_step", name, DataSetMode.PROCESS_SPLIT, []⟩)⟩

/-- A packer of lists of numbers, one byte each: a number above 255 is an
encoding failure, which leaves the count of the numbers before it as the size
and the buffer as it was. -/
def numbersPacker : MemPacker (List Nat) Failure where
  pack := fun data =>
    match data.mapM (fun n => if h : n < 256 then some (⟨n, h⟩ : Fin 256) else none) with
    | some bytes => .ok bytes
    | none => .error Failure.encoding
  unpack := fun buffer _ => (.ok (), buffer.map Fin.val)
  packFailure := fun data old => ((data.takeWhile (fun n => n < 256)).length, old.2)

/-- The bytes of a string of at most 255 characters below 256: the length, then
the characters. -/
def packString (s : String) : Option Buffer :=
  if h : s.length < 256 then
    (s.toList.mapM (fun c => if hc : c.toNat < 256 then some (⟨c.toNat, hc⟩ : Fin 256)
      else none)).map (fun bytes => (⟨s.length, h⟩ : Fin 256) :: bytes)
  else none

/-- The string at the front of a buffer, and the rest of the buffer. -/
def unpackString : Buffer → Option (String × Buffer)
  | [] => none
  | n :: rest =>
    if n.val ≤ rest.length then
      some (String.mk ((rest.take n.val).map (fun b => Char.ofNat b.val)), rest.drop n.val)
    else none

/-- The four bytes of an `int`, lowest first. -/
def packInt (n : Int) : Option Buffer :=
  if -INT_HALF ≤ n ∧ n < INT_HALF then
    let m := (n % (2 * INT_HALF)).toNat
    some [Fin.ofNat m, Fin.ofNat (m / 256), Fin.ofNat (m / 65536), Fin.ofNat (m / 16777216)]
  else none

/-- The `int` at the front of a buffer, and the rest of the buffer. -/
def unpackInt : Buffer → Option (Int × Buffer)
  | b0 :: b1 :: b2 :: b3 :: rest =>
    some (toInt (b0.val + 256 * b1.val + 65536 * b2.val + 16777216 * b3.val : Nat), rest)
  | _ => none

/-- The bytes of the six header fields, one after the other. -/
def packHeader : HeaderFields → Option Buffer
  | (s1, s2, s3, s4, s5, n) => do
    let b1 ← packString s1
    let b2 ← packString s2
    let b3 ← packString s3
    let b4 ← packString s4
    let b5 ← packString s5
    let b6 ← packInt n
    pure (b1 ++ b2 ++ b3 ++ b4 ++ b5 ++ b6)

/-- The six header fields of a buffer that holds nothing else. -/
def unpackHeader (buffer : Buffer) : Option HeaderFields := do
  let (s1, r1) ← unpackString buffer
  let (s2, r2) ← unpackString r1
  let (s3, r3) ← unpackString r2
  let (s4, r4) ← unpackString r3
  let (s5, r5) ← unpackString r4
  let (n, r6) ← unpackInt r5
  if r6 = [] then some (s1, s2, s3, s4, s5, n) else none

/-- A packer of the header fields; a failure leaves size 0 and the buffer as it
was, a failed `unpack` leaves the object as it was. -/
def headerPacker : MemPacker HeaderFields Failure where
  pack := fun h =>
    match packHeader h with
    | some bytes => .ok bytes
    | none => .error Failure.encoding
  unpack := fun buffer old =>
    match unpackHeader buffer with
    | some h => (.ok (), h)
    | none => (.error Failure.encoding, old)
  packFailure := fun _ old => (0, old.2)

/-! ## Notions of the specification -/

/-- The names without a number to convert: after the leading white space and
one optional sign there is no digit. -/
def hasNoNumber (nptr : List Char) : Bool :=
  match nptr.dropWhile isspace with
  | [] => true
  | c :: cs =>
    if c.toNat = 45 || c.toNat = 43 then !(cs.head?.any isdigit) else !(isdigit c)

/-- Follows the words of the specification, not the code: a name that is a
decimal non-negative integer, a non-empty string of decimal digits. -/
def isDecimalName (name : String) : Bool :=
  !name.toList.isEmpty && name.toList.all isdigit

/-- Follows the words of the specification, not the code: "the maximum over
only the names that are decimal non-negative integers, or -1" when there is
none, the other names being ignored. -/
def lastValidReportStep (entries : List String) : Int :=
  ((entries.filter isDecimalName).map (fun name => (digitsValue name.toList 0 : Int))).foldl
    max (-1)

end Opm

namespace Opm.HDF5Serializer

variable {F ε T : Type}

/-! ## The write and read path -/

theorem pack_of_ok (P : MemPacker T ε) (data : T) (self : HDF5Serializer F) (bytes : Buffer)
    (h : P.pack data = .ok bytes) :
    pack P data self = (.ok (), ⟨bytes.length, bytes, self.m_h5file⟩) := by
  simp [pack, h]

theorem pack_of_error (P : MemPacker T ε) (data : T) (self : HDF5Serializer F) (e : ε)
    (h : P.pack data = .error e) :
    pack P data self = (.error e,
      ⟨(P.packFailure data (self.m_packSize, self.m_buffer)).1,
       (P.packFailure data (self.m_packSize, self.m_buffer)).2, self.m_h5file⟩) := by
  simp [pack, h]

theorem write_of_pack_ok (P : MemPacker T ε) (B : HDF5File F ε) (data : T)
    (group dset : String) (mode : DataSetMode) (self : HDF5Serializer F) (bytes : Buffer)
    (h : P.pack data = .ok bytes) :
    write P B data group dset mode self =
      ((B.write self.m_h5file group dset bytes mode).1,
       ⟨bytes.length, bytes, (B.write self.m_h5file group dset bytes mode).2⟩) := by
  simp [write, pack_of_ok P data self bytes h]

theorem write_of_pack_error (P : MemPacker T ε) (B : HDF5File F ε) (data : T)
    (group dset : String) (mode : DataSetMode) (self : HDF5Serializer F) (e : ε)
    (h : P.pack data = .error e) :
    write P B data group dset mode self =
      (.error e, ⟨SIZE_MAX, (P.packFailure data (self.m_packSize, self.m_buffer)).2,
        self.m_h5file⟩) := by
  simp [write, pack_of_error P data self e h]

theorem writeHeader_of_pack_ok (P : MemPacker HeaderFields ε) (B : HDF5File F ε)
    (simulator_name module_version time_stamp case_name params : String) (num_procs : Int)
    (self : HDF5Serializer F) (bytes : Buffer)
    (h : P.pack (simulator_name, module_version, time_stamp, case_name, params, num_procs)
      = .ok bytes) :
    writeHeader P B simulator_name module_version time_stamp case_name params num_procs self =
      ((B.write self.m_h5file "/" "simulator_info" bytes DataSetMode.ROOT_ONLY).1,
       ⟨bytes.length, bytes,
        (B.write self.m_h5file "/" "simulator_info" bytes DataSetMode.ROOT_ONLY).2⟩) := by
  simp [writeHeader, pack_of_ok P _ self bytes h]

theorem writeHeader_of_pack_error (P : MemPacker HeaderFields ε) (B : HDF5File F ε)
    (simulator_name module_version time_stamp case_name params : String) (num_procs : Int)
    (self : HDF5Serializer F) (e : ε)
    (h : P.pack (simulator_name, module_version, time_stamp, case_name, params, num_procs)
      = .error e) :
    writeHeader P B simulator_name module_version time_stamp case_name params num_procs self =
      (.error e, ⟨SIZE_MAX,
        (P.packFailure (simulator_name, module_version, time_stamp, case_name, params,
          num_procs) (self.m_packSize, self.m_buffer)).2, self.m_h5file⟩) := by
  simp [writeHeader, pack_of_error P _ self e h]

theorem read_of_ok (P : MemPacker T ε) (B : HDF5File F ε) (data : T)
    (group dset : String) (mode : DataSetMode) (self : HDF5Serializer F) (f : F)
    (buffer : Buffer)
    (h : B.read self.m_h5file group dset self.m_buffer mode = (.ok (), f, buffer)) :
    read P B data group dset mode self = (P.unpack buffer data, ⟨self.m_packSize, buffer, f⟩) := by
  simp [read, h, unpack]

theorem read_of_error (P : MemPacker T ε) (B : HDF5File F ε) (data : T)
    (group dset : String) (mode : DataSetMode) (self : HDF5Serializer F) (e : ε) (f : F)
    (buffer : Buffer)
    (h : B.read self.m_h5file group dset self.m_buffer mode = (.error e, f, buffer)) :
    read P B data group dset mode self = ((.error e, data), ⟨self.m_packSize, buffer, f⟩) := by
  simp [read, h]

theorem write_ok_inv (P : MemPacker T ε) (B : HDF5File F ε) (data : T)
    (group dset : String) (mode : DataSetMode) (self : HDF5Serializer F)
    (h : (write P B data group dset mode self).1 = .ok ()) :
    ∃ bytes, P.pack data = .ok bytes ∧
      (B.write self.m_h5file group dset bytes mode).1 = .ok () := by
  cases hp : P.pack data with
  | error e => rw [write_of_pack_error P B data group dset mode self e hp] at h; cases h
  | ok bytes =>
    rw [write_of_pack_ok P B data group dset mode self bytes hp] at h
    exact ⟨bytes, rfl, h⟩

/-! ## Sentinel bookkeeping and failures -/

/-- C3: sentinel invariant of `write` and `writeHeader`. From every prior state,
a call whose pack succeeds (with `bytes`) and whose backend write succeeds
returns normally and leaves `m_packSize` equal to the length of `bytes`; a call
whose pack throws `e` throws `e` and leaves `m_packSize` equal to `SIZE_MAX`,
whatever it held before and whatever the failed pack left in it. -/
theorem sentinel_invariant (P : MemPacker T ε) (PH : MemPacker HeaderFields ε)
    (B : HDF5File F ε) (self : HDF5Serializer F) (data : T) (group dset : String)
    (mode : DataSetMode)
    (simulator_name module_version time_stamp case_name params : String) (num_procs : Int) :
    (∀ bytes, P.pack data = .ok bytes →
      (B.write self.m_h5file group dset bytes mode).1 = .ok () →
      (write P B data group dset mode self).1 = .ok () ∧
      (write P B data group dset mode self).2.m_packSize = bytes.length) ∧
    (∀ e, P.pack data = .error e →
      (write P B data group dset mode self).1 = .error e ∧
      (write P B data group dset mode self).2.m_packSize = SIZE_MAX) ∧
    (∀ bytes,
      PH.pack (simulator_name, module_version, time_stamp, case_name, params, num_procs)
        = .ok bytes →
      (B.write self.m_h5file "/" "simulator_info" bytes DataSetMode.ROOT_ONLY).1 = .ok () →
      (writeHeader PH B simulator_name module_version time_stamp case_name params num_procs
        self).1 = .ok () ∧
      (writeHeader PH B simulator_name module_version time_stamp case_name params num_procs
        self).2.m_packSize = bytes.length) ∧
    (∀ e,
      PH.pack (simulator_name, module_version, time_stamp, case_name, params, num_procs)
        = .error e →
      (writeHeader PH B simulator_name module_version time_stamp case_name params num_procs
        self).1 = .error e ∧
      (writeHeader PH B simulator_name module_version time_stamp case_name params num_procs
        self).2.m_packSize = SIZE_MAX) := by
  refine ⟨?_, ?_, ?_, ?_⟩
  · intro bytes hp hw
    rw [write_of_pack_ok P B data group dset mode self bytes hp]
    exact ⟨hw, rfl⟩
  · intro e hp
    rw [write_of_pack_error P B data group dset mode self e hp]
    exact ⟨rfl, rfl⟩
  · intro bytes hp hw
    rw [writeHeader_of_pack_ok PH B _ _ _ _ _ _ self bytes hp]
    exact ⟨hw, rfl⟩
  · intro e hp
    rw [writeHeader_of_pack_error PH B _ _ _ _ _ _ self e hp]
    exact ⟨rfl, rfl⟩

/-- A run of C3 on the in-memory file from a state whose sentinel is 7: three
numbers are written with sentinel 3, a number above 255 leaves `SIZE_MAX`, and
likewise for a header and for a header with a character no byte holds. -/
theorem sentinel_invariant_witness :
    (write numbersPacker memFile [1, 2, 3] "/report_step" "4" DataSetMode.PROCESS_SPLIT
      ⟨7, [9], []⟩).2.m_packSize = 3 ∧
    (write numbersPacker memFile [1, 2, 300] "/report_step" "4" DataSetMode.PROCESS_SPLIT
      ⟨7, [9], []⟩).2.m_packSize = SIZE_MAX ∧
    (writeHeader headerPacker memFile "flow" "2023.10" "now" "SPE1" "a=1" 4
      ⟨7, [9], []⟩).2.m_packSize = 30 ∧
    (writeHeader headerPacker memFile "flow" "2023.10" "now" "SPE\u03c0" "a=1" 4
      ⟨7, [9], []⟩).2.m_packSize = SIZE_MAX :=
  ⟨((sentinel_invariant numbersPacker headerPacker memFile ⟨7, [9], []⟩ [1, 2, 3]
      "/report_step" "4" DataSetMode.PROCESS_SPLIT "flow" "2023.10" "now" "SPE1" "a=1" 4).1
      [1, 2, 3] rfl rfl).2,
   ((sentinel_invariant numbersPacker headerPacker memFile ⟨7, [9], []⟩ [1, 2, 300]
      "/report_step" "4" DataSetMode.PROCESS_SPLIT "flow" "2023.10" "now" "SPE1" "a=1" 4).2.1
      Failure.encoding rfl).2,
   ((sentinel_invariant numbersPacker headerPacker memFile ⟨7, [9], []⟩ [1, 2, 3]
      "/report_step" "4" DataSetMode.PROCESS_SPLIT "flow" "2023.10" "now" "SPE1" "a=1" 4).2.2.1
      _ rfl rfl).2,
   ((sentinel_invariant numbersPacker headerPacker memFile ⟨7, [9], []⟩ [1, 2, 3]
      "/report_step" "4" DataSetMode.PROCESS_SPLIT "flow" "2023.10" "now" "SPE\u03c0" "a=1"
      4).2.2.2 Failure.encoding rfl).2⟩

/-- C4: failure isolation. If the pack of `write` throws `e`, the call throws
`e`, the state of the file is the one before the call and the whole result is
the same whatever the backend (its `write` is not called), and `m_packSize` is
`SIZE_MAX`. A following `write` at any address, in particular a different
one, whose pack and backend write succeed returns normally, leaves the file
as the backend's `write` of those bytes at that address made it, and leaves
`m_packSize` equal to the length of those bytes. -/
theorem failure_isolation {T2 : Type} (P : MemPacker T ε) (P2 : MemPacker T2 ε)
    (B : HDF5File F ε) (self : HDF5Serializer F) (data : T) (group dset : String)
    (mode : DataSetMode) (e : ε) (hfail : P.pack data = .error e) :
    (write P B data group dset mode self).1 = .error e ∧
    (write P B data group dset mode self).2.m_h5file = self.m_h5file ∧
    (∀ B2 : HDF5File F ε,
      write P B2 data group dset mode self = write P B data group dset mode self) ∧
    (write P B data group dset mode self).2.m_packSize = SIZE_MAX ∧
    ∀ (data2 : T2) (group2 dset2 : String) (mode2 : DataSetMode) (bytes2 : Buffer),
      P2.pack data2 = .ok bytes2 →
      (B.write self.m_h5file group2 dset2 bytes2 mode2).1 = .ok () →
      write P2 B data2 group2 dset2 mode2 (write P B data group dset mode self).2 =
        (.ok (), ⟨bytes2.length, bytes2,
          (B.write self.m_h5file group2 dset2 bytes2 mode2).2⟩) := by
  have hw := fun B2 : HDF5File F ε => write_of_pack_error P B2 data group dset mode self e hfail
  refine ⟨by rw [hw B], by rw [hw B], fun B2 => by rw [hw B2, hw B], by rw [hw B], ?_⟩
  intro data2 group2 dset2 mode2 bytes2 hp hb
  rw [write_of_pack_ok P2 B data2 group2 dset2 mode2 _ bytes2 hp, hw B]
  simp only
  rw [hb]

/-- A run of C4 on the in-memory file: the write of `[1, 2, 300]` at
`/report_step/4` fails and stores nothing, the write of `[5, 6]` at
`/report_step/5` that follows stores its dataset with sentinel 2. -/
theorem failure_isolation_witness :
    numbersPacker.pack [1, 2, 300] = .error Failure.encoding ∧
    (write numbersPacker memFile [1, 2, 300] "/report_step" "4" DataSetMode.PROCESS_SPLIT
      ⟨7, [9], []⟩).2 = ⟨SIZE_MAX, [9], []⟩ ∧
    write numbersPacker memFile [5, 6] "/report_step" "5" DataSetMode.PROCESS_SPLIT
      (write numbersPacker memFile [1, 2, 300] "/report_step" "4" DataSetMode.PROCESS_SPLIT
        ⟨7, [9], []⟩).2 =
      (.ok (), ⟨2, [5, 6], [⟨"/report_step", "5", DataSetMode.PROCESS_SPLIT, [5, 6]⟩]⟩) :=
  ⟨rfl, rfl,
   (failure_isolation numbersPacker numbersPacker memFile ⟨7, [9], []⟩ [1, 2, 300]
      "/report_step" "4" DataSetMode.PROCESS_SPLIT Failure.encoding rfl).2.2.2.2
      [5, 6] "/report_step" "5" DataSetMode.PROCESS_SPLIT [5, 6] rfl rfl⟩

/-- The in-memory file hands back the bytes it was last given for an address
and mode. -/
theorem memFile_read_after_write (f : List DataSet) (group dset : String) (bytes buffer : Buffer)
    (mode : DataSetMode) :
    memFile.read (memFile.write f group dset bytes mode).2 group dset buffer mode =
      (.ok (), (memFile.write f group dset bytes mode).2, bytes) := by
  simp [memFile, DataSet.isAt]

/-- C5: round trip through the serializer. Let the packer decode the bytes of
`v` to `v` and let the backend's `read` return the bytes its `write` stored at
the address and mode. Then after a `write` of `v` that returns normally, a
`read` at the same address and mode on the file that `write` left, by a
serializer in any state (whatever its `m_packSize` and whatever stale bytes
its `m_buffer` holds, the writing serializer included) and into any object,
returns normally, leaves that object equal to `v` and leaves in `m_buffer` the
bytes `v` was packed to. -/
theorem write_read_round_trip (P : MemPacker T ε) (B : HDF5File F ε) (v out : T)
    (group dset : String) (mode : DataSetMode) (self : HDF5Serializer F)
    (hP : ∀ bytes d, P.pack v = .ok bytes → P.unpack bytes d = (.ok (), v))
    (hB : ∀ bytes buffer, (B.write self.m_h5file group dset bytes mode).1 = .ok () →
      ∃ f, B.read (B.write self.m_h5file group dset bytes mode).2 group dset buffer mode
        = (.ok (), f, bytes))
    (hw : (write P B v group dset mode self).1 = .ok ()) :
    ∀ reader : HDF5Serializer F,
      reader.m_h5file = (write P B v group dset mode self).2.m_h5file →
      (read P B out group dset mode reader).1 = (.ok (), v) ∧
      P.pack v = .ok (read P B out group dset mode reader).2.m_buffer := by
  obtain ⟨bytes, hp, hb⟩ := write_ok_inv P B v group dset mode self hw
  intro reader hfile
  rw [write_of_pack_ok P B v group dset mode self bytes hp] at hfile
  simp only at hfile
  obtain ⟨f, hr⟩ := hB bytes reader.m_buffer hb
  rw [← hfile] at hr
  rw [read_of_ok P B out group dset mode reader f bytes hr]
  exact ⟨hP bytes out hp, hp⟩

/-- A run of C5 on the in-memory file: the numbers `[1, 2, 3]` written at
`/report_step/4` are read back, by a serializer whose buffer holds the stale
bytes `[4, 4]`, into an object that held `[8]`; and by the writing serializer
as well. -/
theorem write_read_round_trip_witness :
    (read numbersPacker memFile [8] "/report_step" "4" DataSetMode.PROCESS_SPLIT
      ⟨0, [4, 4], (write numbersPacker memFile [1, 2, 3] "/report_step" "4"
        DataSetMode.PROCESS_SPLIT ⟨7, [9], []⟩).2.m_h5file⟩).1 = (.ok (), [1, 2, 3]) ∧
    (read numbersPacker memFile [8] "/report_step" "4" DataSetMode.PROCESS_SPLIT
      (write numbersPacker memFile [1, 2, 3] "/report_step" "4" DataSetMode.PROCESS_SPLIT
        ⟨7, [9], []⟩).2).1 = (.ok (), [1, 2, 3]) :=
  have h := write_read_round_trip numbersPacker memFile [1, 2, 3] [8] "/report_step" "4"
    DataSetMode.PROCESS_SPLIT ⟨7, [9], []⟩
    (fun bytes d h => by cases h; rfl)
    (fun bytes buffer _ => ⟨_, memFile_read_after_write [] "/report_step" "4" bytes buffer
      DataSetMode.PROCESS_SPLIT⟩)
    rfl
  ⟨(h ⟨0, [4, 4], _⟩ rfl).1, (h _ rfl).1⟩

/-- C6: header write. When the pack of the six fields, in the order
(simulator name, module version, time stamp, case name, params, num_procs),
succeeds with `bytes`, `writeHeader` is one backend `write` of `bytes` at group
`/`, dataset `simulator_info`, mode `ROOT_ONLY` (on a file that records its
`write` calls the record grows by exactly that call). If moreover the packer
decodes `bytes` to the six fields, the backend write succeeds and the backend
reads back what it stored there, a following `read` of `/`, `simulator_info`
in mode `ROOT_ONLY` on the file that `writeHeader` left, by a serializer in
any state (whatever its `m_packSize` and whatever stale bytes its `m_buffer`
holds, the writing serializer included), leaves the six fields, the process
count included, in the object read into, and `bytes` in `m_buffer`. -/
theorem header_single_write (P : MemPacker HeaderFields ε) (B : HDF5File F ε)
    (simulator_name module_version time_stamp case_name params : String) (num_procs : Int)
    (self : HDF5Serializer F) (bytes : Buffer)
    (hpack : P.pack (simulator_name, module_version, time_stamp, case_name, params, num_procs)
      = .ok bytes) :
    writeHeader P B simulator_name module_version time_stamp case_name params num_procs self =
      ((B.write self.m_h5file "/" "simulator_info" bytes DataSetMode.ROOT_ONLY).1,
       ⟨bytes.length, bytes,
        (B.write self.m_h5file "/" "simulator_info" bytes DataSetMode.ROOT_ONLY).2⟩) ∧
    (∀ log : List DataSet,
      (writeHeader P (recordingFile ε) simulator_name module_version time_stamp case_name params
        num_procs ⟨self.m_packSize, self.m_buffer, log⟩).2.m_h5file =
        log ++ [⟨"/", "simulator_info", DataSetMode.ROOT_ONLY, bytes⟩]) ∧
    ((∀ d, P.unpack bytes d =
        (.ok (), (simulator_name, module_version, time_stamp, case_name, params, num_procs))) →
      (B.write self.m_h5file "/" "simulator_info" bytes DataSetMode.ROOT_ONLY).1 = .ok () →
      (∀ buffer, ∃ f,
        B.read (B.write self.m_h5file "/" "simulator_info" bytes DataSetMode.ROOT_ONLY).2
          "/" "simulator_info" buffer DataSetMode.ROOT_ONLY = (.ok (), f, bytes)) →
      ∀ (out : HeaderFields) (reader : HDF5Serializer F),
        reader.m_h5file =
          (writeHeader P B simulator_name module_version time_stamp case_name params num_procs
            self).2.m_h5file →
        (read P B out "/" "simulator_info" DataSetMode.ROOT_ONLY reader).1 =
          (.ok (), (simulator_name, module_version, time_stamp, case_name, params,
            num_procs)) ∧
        (read P B out "/" "simulator_info" DataSetMode.ROOT_ONLY reader).2.m_buffer
          = bytes) := by
  refine ⟨writeHeader_of_pack_ok P B _ _ _ _ _ _ self bytes hpack, ?_, ?_⟩
  · intro log
    rw [writeHeader_of_pack_ok P (recordingFile ε) _ _ _ _ _ _ _ bytes hpack]
    rfl
  · intro hP _ hB out reader hfile
    rw [writeHeader_of_pack_ok P B _ _ _ _ _ _ self bytes hpack] at hfile
    simp only at hfile
    obtain ⟨f, hr⟩ := hB reader.m_buffer
    rw [← hfile] at hr
    rw [read_of_ok P B out "/" "simulator_info" DataSetMode.ROOT_ONLY reader f bytes hr]
    exact ⟨hP out, rfl⟩

/-- A run of C6 on the in-memory file: the header of a four-process run is read
back, field by field, by a serializer whose buffer holds the stale bytes
`[4, 4]` into an object that held empty fields; and by the writing serializer
as well. -/
theorem header_single_write_witness :
    (read headerPacker memFile ("", "", "", "", "", 0) "/" "simulator_info"
      DataSetMode.ROOT_ONLY
      ⟨0, [4, 4], (writeHeader headerPacker memFile "flow" "2023.10" "now" "SPE1" "a=1" 4
        ⟨7, [9], []⟩).2.m_h5file⟩).1 =
      (.ok (), ("flow", "2023.10", "now", "SPE1", "a=1", 4)) ∧
    (read headerPacker memFile ("", "", "", "", "", 0) "/" "simulator_info"
      DataSetMode.ROOT_ONLY
      (writeHeader headerPacker memFile "flow" "2023.10" "now" "SPE1" "a=1" 4
        ⟨7, [9], []⟩).2).1 = (.ok (), ("flow", "2023.10", "now", "SPE1", "a=1", 4)) :=
  have h := (header_single_write headerPacker memFile "flow" "2023.10" "now" "SPE1" "a=1" 4
    ⟨7, [9], []⟩ _ rfl).2.2
    (fun _ => rfl) rfl
    (fun buffer => ⟨_, memFile_read_after_write [] "/" "simulator_info" _ buffer
      DataSetMode.ROOT_ONLY⟩)
    ("", "", "", "", "", 0)
  ⟨(h ⟨0, [4, 4], _⟩ rfl).1, (h _ rfl).1⟩

/-- C9: an I/O failure leaves the sentinel alone. If the pack of `write` (of
`writeHeader`) succeeds with `bytes`, shorter than `SIZE_MAX`, and the
backend's `write` throws `e`, the call throws `e` and `m_packSize` is the
length of `bytes`, which is not `SIZE_MAX`. If the backend's `read` throws `e`
during `read`, the call throws `e`, the object read into keeps its value,
`m_packSize` keeps its value, and all of this whatever the packer (its `unpack`
is not called). -/
theorem io_failure_keeps_sentinel (P : MemPacker T ε) (PH : MemPacker HeaderFields ε)
    (B : HDF5File F ε) (self : HDF5Serializer F) (data : T) (group dset : String)
    (mode : DataSetMode)
    (simulator_name module_version time_stamp case_name params : String) (num_procs : Int) :
    (∀ bytes e, P.pack data = .ok bytes →
      (B.write self.m_h5file group dset bytes mode).1 = .error e →
      bytes.length < SIZE_MAX →
      (write P B data group dset mode self).1 = .error e ∧
      (write P B data group dset mode self).2.m_packSize = bytes.length ∧
      (write P B data group dset mode self).2.m_packSize ≠ SIZE_MAX) ∧
    (∀ bytes e,
      PH.pack (simulator_name, module_version, time_stamp, case_name, params, num_procs)
        = .ok bytes →
      (B.write self.m_h5file "/" "simulator_info" bytes DataSetMode.ROOT_ONLY).1 = .error e →
      bytes.length < SIZE_MAX →
      (writeHeader PH B simulator_name module_version time_stamp case_name params num_procs
        self).1 = .error e ∧
      (writeHeader PH B simulator_name module_version time_stamp case_name params num_procs
        self).2.m_packSize = bytes.length ∧
      (writeHeader PH B simulator_name module_version time_stamp case_name params num_procs
        self).2.m_packSize ≠ SIZE_MAX) ∧
    (∀ e, (B.read self.m_h5file group dset self.m_buffer mode).1 = .error e →
      ∀ (P2 : MemPacker T ε) (out : T),
        (read P2 B out group dset mode self).1 = (.error e, out) ∧
        (read P2 B out group dset mode self).2.m_packSize = self.m_packSize) := by
  refine ⟨?_, ?_, ?_⟩
  · intro bytes e hp hw hlen
    rw [write_of_pack_ok P B data group dset mode self bytes hp]
    exact ⟨hw, rfl, Nat.ne_of_lt hlen⟩
  · intro bytes e hp hw hlen
    rw [writeHeader_of_pack_ok PH B _ _ _ _ _ _ self bytes hp]
    exact ⟨hw, rfl, Nat.ne_of_lt hlen⟩
  · intro e hr P2 out
    rcases hx : B.read self.m_h5file group dset self.m_buffer mode with ⟨r, f, buffer⟩
    rw [hx] at hr
    simp only at hr
    subst hr
    rw [read_of_error P2 B out group dset mode self e f buffer hx]
    exact ⟨rfl, rfl⟩

/-- A run of C9 on the file whose calls all fail: the write of three numbers
throws `Failure.storage` with sentinel 3, the header write throws it with sentinel
30, and a read throws it with the sentinel still 7 and the object still `[8]`. -/
theorem io_failure_keeps_sentinel_witness :
    ((write numbersPacker brokenFile [1, 2, 3] "/report_step" "4" DataSetMode.PROCESS_SPLIT
      ⟨7, [9], []⟩).1 = .error Failure.storage ∧
     (write numbersPacker brokenFile [1, 2, 3] "/report_step" "4" DataSetMode.PROCESS_SPLIT
      ⟨7, [9], []⟩).2.m_packSize = 3 ∧
     (write numbersPacker brokenFile [1, 2, 3] "/report_step" "4" DataSetMode.PROCESS_SPLIT
      ⟨7, [9], []⟩).2.m_packSize ≠ SIZE_MAX) ∧
    (writeHeader headerPacker brokenFile "flow" "2023.10" "now" "SPE1" "a=1" 4
      ⟨7, [9], []⟩).2.m_packSize = 30 ∧
    (read numbersPacker brokenFile [8] "/report_step" "4" DataSetMode.PROCESS_SPLIT
      ⟨7, [9], []⟩).1 = (.error Failure.storage, [8]) ∧
    (read numbersPacker brokenFile [8] "/report_step" "4" DataSetMode.PROCESS_SPLIT
      ⟨7, [9], []⟩).2.m_packSize = 7 :=
  have h := io_failure_keeps_sentinel numbersPacker headerPacker brokenFile ⟨7, [9], []⟩
    [1, 2, 3] "/report_step" "4" DataSetMode.PROCESS_SPLIT "flow" "2023.10" "now" "SPE1" "a=1" 4
  ⟨h.1 [1, 2, 3] Failure.storage rfl rfl (by decide),
   (h.2.1 _ Failure.storage rfl rfl (by decide)).2.1,
   (h.2.2 Failure.storage rfl numbersPacker [8]).1,
   (h.2.2 Failure.storage rfl numbersPacker [8]).2⟩

/-! ## The report-step index -/

/-- The loop of `lastReportStep` from any start value: the result is at least
the start value and every parsed entry, and is one of them. -/
theorem foldl_max_spec (f : String → Int) (entries : List String) (init : Int) :
    init ≤ entries.foldl (fun last entry => max last (f entry)) init ∧
    (∀ entry ∈ entries, f entry ≤ entries.foldl (fun last entry => max last (f entry)) init) ∧
    (entries.foldl (fun last entry => max last (f entry)) init = init ∨
      ∃ entry ∈ entries, entries.foldl (fun last entry => max last (f entry)) init = f entry) := by
  induction entries generalizing init with
  | nil => simp
  | cons a rest ih =>
    obtain ⟨h1, h2, h3⟩ := ih (max init (f a))
    simp only [List.foldl_cons, List.mem_cons, forall_eq_or_imp, exists_eq_or_imp]
    refine ⟨le_trans (le_max_left _ _) h1, ⟨le_trans (le_max_right _ _) h1, h2⟩, ?_⟩
    rcases h3 with h3 | ⟨x, hx, h3⟩
    · rcases max_choice init (f a) with hm | hm
      · left; rw [h3, hm]
      · right; left; rw [h3, hm]
    · right; right; exact ⟨x, hx, h3⟩

theorem mem_reportSteps (B : HDF5File F ε) (self : HDF5Serializer F) (x : Int) :
    x ∈ reportSteps B self ↔
      ∃ entry ∈ B.list self.m_h5file "/report_step", atoi (c_str entry) = x := by
  simp [reportSteps, List.mem_insertionSort]

theorem reportSteps_eq_nil (B : HDF5File F ε) (self : HDF5Serializer F) :
    reportSteps B self = [] ↔ B.list self.m_h5file "/report_step" = [] := by
  constructor
  · intro h
    have hl := List.length_insertionSort (· ≤ ·)
      ((B.list self.m_h5file "/report_step").map (fun input => atoi (c_str input)))
    simp only [reportSteps] at h
    rw [h] at hl
    simpa using hl.symm
  · intro h
    simp [reportSteps, h]

/-- The three facts that tie `lastReportStep` to `reportSteps`. -/
theorem lastReportStep_spec (B : HDF5File F ε) (self : HDF5Serializer F) :
    -1 ≤ lastReportStep B self ∧
    (∀ x ∈ reportSteps B self, x ≤ lastReportStep B self) ∧
    (lastReportStep B self = -1 ∨ lastReportStep B self ∈ reportSteps B self) := by
  obtain ⟨h1, h2, h3⟩ := foldl_max_spec (fun entry => atoi (c_str entry))
    (B.list self.m_h5file "/report_step") (-1)
  refine ⟨h1, ?_, ?_⟩
  · intro x hx
    obtain ⟨entry, he, rfl⟩ := (mem_reportSteps B self x).1 hx
    exact h2 entry he
  · rcases h3 with h3 | ⟨entry, he, h3⟩
    · exact Or.inl h3
    · exact Or.inr ((mem_reportSteps B self _).2 ⟨entry, he, h3.symm⟩)

/-- C10: `lastReportStep` is at least -1 and at least the parsed value of every
listed name, and it is -1 or the parsed value of a listed name; it is the
larger of -1 and the maximum of `reportSteps`; so on a listing whose names all
parse below -1 it is -1. -/
theorem lastReportStep_bounds (B : HDF5File F ε) (self : HDF5Serializer F) :
    -1 ≤ lastReportStep B self ∧
    (∀ name ∈ B.list self.m_h5file "/report_step",
      atoi (c_str name) ≤ lastReportStep B self) ∧
    (lastReportStep B self = -1 ∨
      ∃ name ∈ B.list self.m_h5file "/report_step",
        lastReportStep B self = atoi (c_str name)) ∧
    max (((-1 : Int)) : WithBot Int) (reportSteps B self).maximum
      = ((lastReportStep B self : Int) : WithBot Int) ∧
    ((∀ name ∈ B.list self.m_h5file "/report_step", atoi (c_str name) < -1) →
      lastReportStep B self = -1) := by
  obtain ⟨h1, h2, h3⟩ := foldl_max_spec (fun entry => atoi (c_str entry))
    (B.list self.m_h5file "/report_step") (-1)
  obtain ⟨k1, k2, k3⟩ := lastReportStep_spec B self
  refine ⟨h1, h2, h3, ?_, ?_⟩
  · rw [← List.maximum_cons, List.maximum_eq_coe_iff]
    constructor
    · rcases k3 with k3 | k3
      · rw [k3]; exact List.mem_cons_self _ _
      · exact List.mem_cons_of_mem _ k3
    · intro a ha
      rcases List.mem_cons.1 ha with rfl | ha
      · exact k1
      · exact k2 a ha
  · intro hall
    rcases h3 with h3 | ⟨name, hn, h3⟩
    · exact h3
    · have := hall name hn
      have h4 : lastReportStep B self = atoi (c_str name) := h3
      omega

/-- A run of C10 on the in-memory file: with the names `-5` and `-7`, which
parse to -5 and -7, `lastReportStep` is -1. -/
theorem lastReportStep_bounds_witness :
    reportSteps memFile (withEntries ["-5", "-7"]) = [-7, -5] ∧
    lastReportStep memFile (withEntries ["-5", "-7"]) = -1 :=
  ⟨by decide,
   (lastReportStep_bounds memFile (withEntries ["-5", "-7"])).2.2.2.2 (by decide)⟩

/-- C1 as stated fails: with the single name `-5`, `reportSteps` is `[-5]`, not
empty and with maximum -5, while `lastReportStep` is -1. -/
theorem lastReportStep_eq_max_counterexample :
    reportSteps memFile (withEntries ["-5"]) = [-5] ∧
    lastReportStep memFile (withEntries ["-5"]) = -1 ∧
    (reportSteps memFile (withEntries ["-5"])).maximum
      ≠ ((lastReportStep memFile (withEntries ["-5"]) : Int) : WithBot Int) ∧
    ¬ (lastReportStep memFile (withEntries ["-5"]) = -1 ↔
        reportSteps memFile (withEntries ["-5"]) = []) := by
  decide

/-- C1, amended: on a listing that is empty or has a name that parses to a
non-negative integer (so on every listing whose names all parse to non-negative
integers), `lastReportStep` is the maximum of `reportSteps` when there is a
name, and it is -1 if and only if `reportSteps` is empty. -/
theorem lastReportStep_eq_max_of_nonneg (B : HDF5File F ε) (self : HDF5Serializer F)
    (hnonneg : B.list self.m_h5file "/report_step" = [] ∨
      ∃ name ∈ B.list self.m_h5file "/report_step", 0 ≤ atoi (c_str name)) :
    (reportSteps B self ≠ [] →
      (reportSteps B self).maximum = ((lastReportStep B self : Int) : WithBot Int)) ∧
    (lastReportStep B self = -1 ↔ reportSteps B self = []) := by
  obtain ⟨-, k2, k3⟩ := lastReportStep_spec B self
  have hiff : lastReportStep B self = -1 ↔ reportSteps B self = [] := by
    constructor
    · intro h
      rcases hnonneg with hnil | ⟨name, hn, h0⟩
      · exact (reportSteps_eq_nil B self).2 hnil
      · have hle := k2 _ ((mem_reportSteps B self _).2 ⟨name, hn, rfl⟩)
        omega
    · intro h
      rcases k3 with k3 | k3
      · exact k3
      · rw [h] at k3; cases k3
  refine ⟨?_, hiff⟩
  intro hne
  rw [List.maximum_eq_coe_iff]
  refine ⟨?_, k2⟩
  rcases k3 with k3 | k3
  · exact absurd (hiff.1 k3) hne
  · exact k3

/-- A run of C1, amended, on the in-memory file with the names `10`, `2`, `33`
and `1`, and with the names `-5` and `3`. -/
theorem lastReportStep_eq_max_of_nonneg_witness :
    (reportSteps memFile (withEntries ["10", "2", "33", "1"])).maximum
      = ((lastReportStep memFile (withEntries ["10", "2", "33", "1"]) : Int) : WithBot Int) ∧
    lastReportStep memFile (withEntries ["10", "2", "33", "1"]) = 33 ∧
    (reportSteps memFile (withEntries ["-5", "3"])).maximum
      = ((lastReportStep memFile (withEntries ["-5", "3"]) : Int) : WithBot Int) :=
  ⟨(lastReportStep_eq_max_of_nonneg memFile (withEntries ["10", "2", "33", "1"])
      (Or.inr ⟨"10", by decide, by decide⟩)).1 (by decide), by decide,
   (lastReportStep_eq_max_of_nonneg memFile (withEntries ["-5", "3"])
      (Or.inr ⟨"3", by decide, by decide⟩)).1 (by decide)⟩

/-- C2: `reportSteps` is sorted in ascending order and is a permutation of the
parsed names, one element per name; on any listing of the names `10`, `2`,
`33`, `1`, in whatever order, it is `[1, 2, 10, 33]`; on the empty listing it is
empty. -/
theorem reportSteps_sorted_perm (B : HDF5File F ε) (self : HDF5Serializer F) :
    List.Sorted (· ≤ ·) (reportSteps B self) ∧
    List.Perm (reportSteps B self)
      ((B.list self.m_h5file "/report_step").map (fun name => atoi (c_str name))) ∧
    (reportSteps B self).length = (B.list self.m_h5file "/report_step").length ∧
    (List.Perm (B.list self.m_h5file "/report_step") ["10", "2", "33", "1"] →
      reportSteps B self = [1, 2, 10, 33]) ∧
    (B.list self.m_h5file "/report_step" = [] → reportSteps B self = []) := by
  have hs : List.Sorted (· ≤ ·) (reportSteps B self) := List.sorted_insertionSort _ _
  have hp : List.Perm (reportSteps B self)
      ((B.list self.m_h5file "/report_step").map (fun name => atoi (c_str name))) :=
    List.perm_insertionSort _ _
  refine ⟨hs, hp, ?_, ?_, ?_⟩
  · simp [reportSteps, List.length_insertionSort]
  · intro hperm
    have h1 : List.Perm (reportSteps B self)
        ((["10", "2", "33", "1"] : List String).map (fun name => atoi (c_str name))) :=
      hp.trans (hperm.map _)
    have h2 : List.Perm (reportSteps B self) [1, 2, 10, 33] := by
      refine h1.trans ?_
      decide
    exact List.eq_of_perm_of_sorted h2 hs (by decide)
  · intro h
    exact (reportSteps_eq_nil B self).2 h

/-- A run of C2 on the in-memory file, with the names listed as `33`, `1`,
`10`, `2`, and with no name. -/
theorem reportSteps_sorted_perm_witness :
    reportSteps memFile (withEntries ["33", "1", "10", "2"]) = [1, 2, 10, 33] ∧
    reportSteps memFile (withEntries []) = [] :=
  ⟨(reportSteps_sorted_perm memFile (withEntries ["33", "1", "10", "2"])).2.2.2.1 (by decide),
   (reportSteps_sorted_perm memFile (withEntries [])).2.2.2.2 rfl⟩


/-! ## Conversion of decimal names -/

theorem digitChar_digit (m : Nat) (h : m < 10) :
    isdigit (Nat.digitChar m) = true ∧ (Nat.digitChar m).toNat - 48 = m := by
  interval_cases m <;> decide

theorem toDigitsCore_append (fuel n : Nat) (ds tail : List Char) :
    Nat.toDigitsCore 10 fuel n (ds ++ tail) = Nat.toDigitsCore 10 fuel n ds ++ tail := by
  induction fuel generalizing n ds with
  | zero => simp [Nat.toDigitsCore]
  | succ fuel ih =>
    simp only [Nat.toDigitsCore]
    split
    · simp
    · rw [← List.cons_append, ih]

theorem digitsValue_toDigitsCore (fuel n : Nat) (ds : List Char) (h : n < fuel) :
    digitsValue (Nat.toDigitsCore 10 fuel n ds) 0 = digitsValue ds n := by
  induction fuel generalizing n ds with
  | zero => omega
  | succ fuel ih =>
    obtain ⟨hd, hv⟩ := digitChar_digit (n % 10) (Nat.mod_lt _ (by decide))
    simp only [Nat.toDigitsCore]
    split
    · next h0 =>
      simp only [digitsValue, hd, if_true, hv]
      congr 1
      omega
    · next h0 =>
      rw [ih (n / 10) _ (by omega)]
      simp only [digitsValue, hd, if_true, hv]
      congr 1
      omega

theorem mem_toDigitsCore (fuel n : Nat) (ds : List Char) (c : Char)
    (h : c ∈ Nat.toDigitsCore 10 fuel n ds) : isdigit c = true ∨ c ∈ ds := by
  induction fuel generalizing n ds with
  | zero => right; simpa [Nat.toDigitsCore] using h
  | succ fuel ih =>
    obtain ⟨hd, -⟩ := digitChar_digit (n % 10) (Nat.mod_lt _ (by decide))
    simp only [Nat.toDigitsCore] at h
    split at h
    · rcases List.mem_cons.1 h with rfl | h
      · exact Or.inl hd
      · exact Or.inr h
    · rcases ih _ _ h with h | h
      · exact Or.inl h
      · rcases List.mem_cons.1 h with rfl | h
        · exact Or.inl hd
        · exact Or.inr h

theorem toDigitsCore_ne_nil (fuel n : Nat) (ds : List Char) :
    Nat.toDigitsCore 10 (fuel + 1) n ds ≠ [] := by
  induction fuel generalizing n ds with
  | zero =>
    simp only [Nat.toDigitsCore]
    split <;> simp
  | succ fuel ih =>
    rw [Nat.toDigitsCore]
    split
    · simp
    · exact ih _ _

theorem digitsValue_of_head (tail : List Char) (n : Nat)
    (h : ∀ c ∈ tail.head?, isdigit c = false) : digitsValue tail n = n := by
  cases tail with
  | nil => rfl
  | cons c cs =>
    have := h c (by simp)
    simp [digitsValue, this]

theorem toInt_of_range (z : Int) (h1 : -INT_HALF ≤ z) (h2 : z < INT_HALF) : toInt z = z := by
  unfold toInt
  unfold INT_HALF at *
  omega

theorem toInt_range (z : Int) : -INT_HALF ≤ toInt z ∧ toInt z < INT_HALF := by
  unfold toInt
  unfold INT_HALF at *
  omega

theorem strtol_decimal (k : Nat) (tail : List Char) (hk : (k : Int) < INT_HALF)
    (htail : ∀ c ∈ tail.head?, isdigit c = false) :
    strtol (Nat.toDigits 10 k ++ tail) = k := by
  have hval : digitsValue (Nat.toDigits 10 k ++ tail) 0 = k := by
    have := toDigitsCore_append (k + 1) k [] tail
    simp only [List.nil_append] at this
    rw [Nat.toDigits, ← this, digitsValue_toDigitsCore _ _ _ (Nat.lt_succ_self k)]
    exact digitsValue_of_head tail k htail
  cases hd : Nat.toDigits 10 k with
  | nil => exact absurd hd (toDigitsCore_ne_nil k k [])
  | cons c cs =>
    have hc : isdigit c = true := by
      have hm : c ∈ Nat.toDigitsCore 10 (k + 1) k [] := by
        have : c ∈ Nat.toDigits 10 k := by rw [hd]; exact List.mem_cons_self _ _
        exact this
      rcases mem_toDigitsCore _ _ _ _ hm with h | h
      · exact h
      · cases h
    rw [hd] at hval
    have hc2 : 48 ≤ c.toNat ∧ c.toNat ≤ 57 := by simpa [isdigit] using hc
    have hsp : isspace c = false := by
      simp [isspace]
      omega
    have h45 : c.toNat ≠ 45 := by omega
    have h43 : c.toNat ≠ 43 := by omega
    simp only [strtol, List.cons_append, List.dropWhile_cons, hsp, h45, h43, if_false,
      Bool.false_eq_true]
    rw [List.cons_append] at hval
    rw [hval]
    unfold INT_HALF at hk
    unfold LONG_MAX
    omega

theorem head_takeWhile (p : Char → Bool) (q : Char → Bool) (l : List Char)
    (h : ∀ c ∈ l.head?, q c = false) : ∀ c ∈ (l.takeWhile p).head?, q c = false := by
  cases l with
  | nil => simp
  | cons a rest =>
    intro c hc
    by_cases hp : p a = true
    · simp [List.takeWhile_cons, hp] at hc
      subst hc
      exact h _ (by simp)
    · simp [List.takeWhile_cons, hp] at hc

/-- The decimal string of a step number that `int` holds, followed by anything
that does not start with a digit, converts to that number. -/
theorem atoi_decimal (k : Nat) (tail : String) (hk : (k : Int) < INT_HALF)
    (htail : ∀ c ∈ tail.toList.head?, isdigit c = false) :
    atoi (c_str (toString k ++ tail)) = k := by
  have hlist : (toString k ++ tail).toList = Nat.toDigits 10 k ++ tail.toList := rfl
  have hnul : ∀ c ∈ Nat.toDigits 10 k, (fun c : Char => c.toNat != 0) c = true := by
    intro c hc
    rcases mem_toDigitsCore _ _ _ _ hc with h | h
    · have hc2 : 48 ≤ c.toNat ∧ c.toNat ≤ 57 := by simpa [isdigit] using h
      simp
      omega
    · cases h
  rw [atoi, c_str, hlist, List.takeWhile_append_of_pos hnul,
    strtol_decimal k _ hk (head_takeWhile _ _ _ htail)]
  exact toInt_of_range _ (by unfold INT_HALF; omega) hk

theorem atoi_of_hasNoNumber (nptr : List Char) (h : hasNoNumber nptr = true) :
    atoi nptr = 0 := by
  unfold hasNoNumber at h
  unfold atoi strtol
  cases hd : nptr.dropWhile isspace with
  | nil => simp [toInt, INT_HALF]
  | cons c cs =>
    rw [hd] at h
    simp only at h ⊢
    by_cases h45 : c.toNat = 45
    · have hcs : ∀ x ∈ cs.head?, isdigit x = false := by
        intro x hx
        cases cs with
        | nil => simp at hx
        | cons y ys =>
          simp at hx
          subst hx
          simpa [h45] using h
      simp [h45, digitsValue_of_head cs 0 hcs, toInt, INT_HALF, LONG_MIN]
    · by_cases h43 : c.toNat = 43
      · have hcs : ∀ x ∈ cs.head?, isdigit x = false := by
          intro x hx
          cases cs with
          | nil => simp at hx
          | cons y ys =>
            simp at hx
            subst hx
            simpa [h43] using h
        simp [h43, digitsValue_of_head cs 0 hcs, toInt, INT_HALF, LONG_MAX]
      · have hc : isdigit c = false := by simpa [h45, h43] using h
        simp [h45, h43, digitsValue, hc, toInt, INT_HALF, LONG_MAX]

/-- C7 as stated fails: the malformed name `12abc` parses to 12, above the valid
step 5, and is not ignored: `lastReportStep` is 12 where the maximum over the
decimal names is 5; listing the malformed name `abc` alone raises
`lastReportStep` from -1 to 0; and the names ` 7` and `-3`, which do not start
with a digit, parse to 7 and -3. -/
theorem parse_tolerant_policy_counterexample :
    atoi (c_str "12abc") = 12 ∧ atoi (c_str "5") = 5 ∧
    lastReportStep memFile (withEntries ["5", "12abc"]) = 12 ∧
    lastValidReportStep ["5", "12abc"] = 5 ∧
    lastReportStep memFile (withEntries []) = -1 ∧
    lastReportStep memFile (withEntries ["abc"]) = 0 ∧
    lastValidReportStep ["abc"] = -1 ∧
    atoi (c_str " 7") = 7 ∧ atoi (c_str "-3") = -3 := by
  decide

/-- C7, amended: every name parses, to a value that `int` holds. A name that
has no digit after its leading white space and one optional sign parses as 0.
The decimal string of a step number that `int` holds parses to that number,
also when characters that do not start with a digit follow it. No name is
ignored: `lastReportStep` is at least -1 and at least the parsed value of
every listed name, malformed ones included, and it is -1 or the parsed value
of a listed name; so it is at least 0 once a name without a number is listed. -/
theorem parse_tolerant_policy (B : HDF5File F ε) (self : HDF5Serializer F) :
    (∀ name : String, -INT_HALF ≤ atoi (c_str name) ∧ atoi (c_str name) < INT_HALF) ∧
    (∀ name : String, hasNoNumber (c_str name) = true → atoi (c_str name) = 0) ∧
    (∀ (k : Nat) (tail : String), (k : Int) < INT_HALF →
      (∀ c ∈ tail.toList.head?, isdigit c = false) →
      atoi (c_str (toString k ++ tail)) = k) ∧
    -1 ≤ lastReportStep B self ∧
    (∀ name ∈ B.list self.m_h5file "/report_step",
      atoi (c_str name) ≤ lastReportStep B self) ∧
    (lastReportStep B self = -1 ∨
      ∃ name ∈ B.list self.m_h5file "/report_step",
        lastReportStep B self = atoi (c_str name)) ∧
    (∀ name ∈ B.list self.m_h5file "/report_step",
      hasNoNumber (c_str name) = true → 0 ≤ lastReportStep B self) := by
  obtain ⟨h1, h2, h3⟩ := foldl_max_spec (fun entry => atoi (c_str entry))
    (B.list self.m_h5file "/report_step") (-1)
  refine ⟨fun name => toInt_range _, fun name h => atoi_of_hasNoNumber _ h,
    fun k tail hk ht => atoi_decimal k tail hk ht, h1, h2, h3, ?_⟩
  intro name hn hno
  have := h2 name hn
  simp only [atoi_of_hasNoNumber _ hno] at this
  exact this

/-- A run of C7, amended, on the in-memory file with the names `5`, `12abc` and
`abc`. -/
theorem parse_tolerant_policy_witness :
    atoi (c_str "abc") = 0 ∧
    atoi (c_str (toString 12 ++ "abc")) = 12 ∧
    0 ≤ lastReportStep memFile (withEntries ["abc"]) :=
  have h := parse_tolerant_policy memFile (withEntries ["abc"])
  ⟨h.2.1 "abc" (by decide), h.2.2.1 12 "abc" (by decide) (by decide),
   h.2.2.2.2.2.2 "abc" (by decide) (by decide)⟩

/-- C8 as stated fails: the names `1` and `01` are distinct and both parse to 1,
so `reportSteps` is `[1, 1]`, which repeats a value. -/
theorem reportSteps_no_ties_counterexample :
    (["1", "01"] : List String).Nodup ∧
    memFile.list (withEntries ["1", "01"]).m_h5file "/report_step" = ["1", "01"] ∧
    reportSteps memFile (withEntries ["1", "01"]) = [1, 1] ∧
    ¬ List.Sorted (· < ·) (reportSteps memFile (withEntries ["1", "01"])) ∧
    ¬ (reportSteps memFile (withEntries ["1", "01"])).Nodup := by
  decide

/-- C8, amended: on a listing whose names parse to pairwise distinct integers
`reportSteps` is strictly ascending; in particular on a listing whose names
are the decimal strings of pairwise distinct step numbers that `int` holds,
where it is moreover a permutation of those step numbers. -/
theorem reportSteps_strict_of_decimal_names (B : HDF5File F ε) (self : HDF5Serializer F) :
    (((B.list self.m_h5file "/report_step").map (fun name => atoi (c_str name))).Nodup →
      List.Sorted (· < ·) (reportSteps B self)) ∧
    (∀ steps : List Nat,
      B.list self.m_h5file "/report_step" = steps.map (fun k => toString k) →
      steps.Nodup →
      (∀ k ∈ steps, (k : Int) < INT_HALF) →
      List.Sorted (· < ·) (reportSteps B self) ∧
      List.Perm (reportSteps B self) (steps.map (fun k : Nat => (k : Int)))) := by
  have hs : List.Sorted (· ≤ ·) (reportSteps B self) := List.sorted_insertionSort _ _
  have hp : List.Perm (reportSteps B self)
      ((B.list self.m_h5file "/report_step").map (fun name => atoi (c_str name))) :=
    List.perm_insertionSort _ _
  have hstrict : ((B.list self.m_h5file "/report_step").map
      (fun name => atoi (c_str name))).Nodup → List.Sorted (· < ·) (reportSteps B self) :=
    fun hnd => hs.lt_of_le (hp.nodup_iff.2 hnd)
  refine ⟨hstrict, ?_⟩
  intro steps hnames hdistinct hrange
  have hmap : (B.list self.m_h5file "/report_step").map (fun name => atoi (c_str name))
      = steps.map (fun k : Nat => (k : Int)) := by
    rw [hnames, List.map_map]
    apply List.map_congr_left
    intro k hk
    have := atoi_decimal k "" (hrange k hk) (by simp)
    simpa using this
  have hnd : (steps.map (fun k : Nat => (k : Int))).Nodup :=
    hdistinct.map (fun a b hab => by exact_mod_cast hab)
  rw [hmap] at hstrict hp
  exact ⟨hstrict hnd, hp⟩

/-- A run of C8, amended, on the in-memory file with the steps 10, 2, 33 and
1. -/
theorem reportSteps_strict_of_decimal_names_witness :
    List.Sorted (· < ·) (reportSteps memFile (withEntries ["10", "2", "33", "1"])) ∧
    List.Perm (reportSteps memFile (withEntries ["10", "2", "33", "1"])) [10, 2, 33, 1] :=
  (reportSteps_strict_of_decimal_names memFile (withEntries ["10", "2", "33", "1"])).2
    [10, 2, 33, 1] (by decide) (by decide) (by decide)

end Opm.HDF5Serializer
